import Mathlib

/-!
Verification of the adaptive chunking, per-chunk translation orchestration and
reassembly core of the NLLB translation service (src/backend/main.py).

Strings are modelled as `List Char` (a Python str is a sequence of code
points; `len`, slicing and indexing agree with `List.length`, `take`/`drop`
and `getD`).  The external tokenizer is an opaque collaborator, so the token
oracle `get_token_count(text, source_lang)` is modelled as a parameter
`tok : List Char → Nat` wherever the chunker consults it (for a healthy
tokenizer it returns `len(encoded) ≥ 0`; the fallback estimate is also a
non-negative integral value).  The translation collaborator
`translate_chunk` is modelled as `tr : Nat → List Char → Option (List Char)`:
the outcome of the n-th collaborator call, `none` meaning the call raised.

Loops are modelled with explicit fuel so that every definition is a
computable structural recursion the kernel can evaluate; `none` from the
chunker means the fuel bound was exceeded, i.e. the Python loop would not
have finished within that many iterations.  The termination theorem shows
the fuel chosen at the call sites is always sufficient when the safe budget
is positive, because every iteration strictly shrinks the remaining text.
-/

namespace Nllb

/-- MAX_TEXT_LENGTH = 5000, maximum characters per request (main.py line 27). -/
def MAX_TEXT_LENGTH : Nat := 5000

/-- MAX_INPUT_TOKENS = 1024, maximum tokens for model input (main.py line 28). -/
def MAX_INPUT_TOKENS : Nat := 1024

/-- Python str whitespace as used by `str.strip()` / `str.isspace()`,
restricted to the ASCII range, which covers every character the claims
touch (space, tab, newline, carriage return, vertical tab, form feed). -/
def pyIsSpace (c : Char) : Bool :=
  c == ' ' || c == '\t' || c == '\n' || c == '\r' || c == '\x0b' || c == '\x0c'

/-- Python `s.strip()`: remove leading and trailing whitespace. -/
def pyStrip (l : List Char) : List Char :=
  ((l.dropWhile pyIsSpace).reverse.dropWhile pyIsSpace).reverse

/-- Python `s.startswith(p)`. -/
def startsWithL : List Char → List Char → Bool
  | _, [] => true
  | [], _ :: _ => false
  | a :: s, b :: p => a == b && startsWithL s p

/-- Sentence boundary markers, main.py line 192: the string
`'.!?\n។。！？\n'` (the duplicate newline of the literal is harmless
for membership). -/
def sentenceEndings : List Char := ['.', '!', '?', '\n', '។', '。', '！', '？']

/-- Greatest index `i < n` with `p i`, scanning downward — the shape of the
Python loops `for i in range(n - 1, -1, -1)` that break at the first hit. -/
def findLastIdx (p : Nat → Bool) : Nat → Option Nat
  | 0 => none
  | n + 1 => if p n then some n else findLastIdx p n

/-- Greatest index `i` with `stop < i < n` and `p i`, scanning downward —
the Python loop `for i in range(n - 1, stop, -1)` breaking at the first
hit (the range is empty as soon as the cursor falls to `stop`). -/
def findLastIdxFrom (p : Nat → Bool) (stop : Nat) : Nat → Option Nat
  | 0 => none
  | n + 1 => if n ≤ stop then none else if p n then some n else findLastIdxFrom p stop n

/-- Condition of the sentence-boundary scan inside the fitting prefix
(main.py lines 229-234): the character is a sentence ending and it is the
last character of the searched text or is followed by whitespace. -/
def sentCond (s : List Char) (i : Nat) : Bool :=
  sentenceEndings.contains (s.getD i ' ') &&
    (i + 1 == s.length || pyIsSpace (s.getD (i + 1) ' '))

/-- The scan of main.py lines 228-234 over `search_text`. -/
def findSentenceIdx (s : List Char) : Option Nat :=
  findLastIdx (sentCond s) s.length

/-- Condition of the fallback sentence scan (main.py lines 262-264): a
sentence ending strictly followed by whitespace (end of text not accepted). -/
def fallbackCond (rem : List Char) (i : Nat) : Bool :=
  sentenceEndings.contains (rem.getD i ' ') &&
    decide (i + 1 < rem.length) && pyIsSpace (rem.getD (i + 1) ' ')

/-- The scan of main.py line 262: `range(fallback_length - 1, max(0, fallback_length - 500), -1)`
(`fb - 500` in `Nat` equals the Python `max(0, fb - 500)`). -/
def findSentenceFallbackIdx (rem : List Char) (fb : Nat) : Option Nat :=
  findLastIdxFrom (fallbackCond rem) (fb - 500) fb

/-- Python `s.rfind(c, start)`: greatest `i ≥ start` with `s[i] = c`,
modelled as an `Option` (Python returns -1 when absent, which every caller
treats as not-found). -/
def pyRfindFrom (s : List Char) (c : Char) (start : Nat) : Option Nat :=
  findLastIdx (fun i => decide (start ≤ i) && (s.getD i ' ' == c)) s.length

/-- Python `s.rfind(c, 0, stop)` with `stop ≤ s.length`: greatest `i < stop`
with `s[i] = c`. -/
def pyRfindBefore (s : List Char) (c : Char) (stop : Nat) : Option Nat :=
  findLastIdx (fun i => s.getD i ' ' == c) stop

/-- The binary search of main.py lines 206-218 (and 291-305): over
`mid ∈ [low, high]`, keep the largest `mid` whose prefix fits the budget.
`fuel` is an upper bound on the number of iterations; each iteration
shrinks `high + 1 - low` by at least one, so `high + 1 - low` at the
initial call is always enough and the fuel-exhausted base case is then
exactly the `low > high` exit of the Python loop. -/
def bsearchGo (tok : List Char → Nat) (safe : Nat) (s : List Char) :
    Nat → Nat → Nat → Nat → Nat
  | 0, _, _, best => best
  | fuel + 1, low, high, best =>
    if low ≤ high then
      if tok (s.take ((low + high) / 2)) ≤ safe then
        bsearchGo tok safe s fuel ((low + high) / 2 + 1) high ((low + high) / 2)
      else
        bsearchGo tok safe s fuel low ((low + high) / 2 - 1) best
    else best

/-- The full binary search `low, high = 1, len(s)` with initial
`best_break = 0`; the result is the final `best_break`, and the final
`chunk_text` is `s.take` of it. -/
def bsearchBest (tok : List Char → Nat) (safe : Nat) (s : List Char) : Nat :=
  bsearchGo tok safe s s.length 1 s.length 0

/-- The found-a-fitting-prefix arm of the chunking loop, main.py lines
221-255, with `best` the final `best_break` of the binary search (so the
current `chunk_text` is `rem.take best` and `search_start` is
`best - best / 5`): prefer the last sentence boundary in the trailing
fifth, then for non-Khmer text a word boundary there (the Python guard
`space_pos > search_start * 0.8` equals `5 * sp > 4 * ss` at these
magnitudes), otherwise cut raw at `best`.  Both components are stripped
exactly as in the source. -/
def cutFound (source_lang rem : List Char) (best : Nat) : List Char × List Char :=
  match findSentenceIdx ((rem.take best).drop (best - best / 5)) with
  | some i =>
    (pyStrip (rem.take ((best - best / 5) + i + 1)),
     pyStrip (rem.drop ((best - best / 5) + i + 1)))
  | none =>
    if startsWithL source_lang ("khm_".data) then
      (pyStrip (rem.take best), pyStrip (rem.drop best))
    else
      match pyRfindFrom (rem.take best) ' ' (best - best / 5) with
      | some sp =>
        if 4 * (best - best / 5) < 5 * sp then
          (pyStrip (rem.take sp), pyStrip (rem.drop sp))
        else (pyStrip (rem.take best), pyStrip (rem.drop best))
      | none => (pyStrip (rem.take best), pyStrip (rem.drop best))

/-- The no-fitting-prefix arm of the chunking loop, main.py lines 256-281:
take a fixed `fallback_length = min(len(rem), safe * 2)` slice, prefer a
sentence ending within its last 500 characters, then for non-Khmer text the
last space before it (accepted when strictly positive), otherwise a raw
slice. -/
def cutFallback (safe : Nat) (source_lang rem : List Char) : List Char × List Char :=
  match findSentenceFallbackIdx rem (min rem.length (safe * 2)) with
  | some i => (pyStrip (rem.take (i + 1)), pyStrip (rem.drop (i + 1)))
  | none =>
    if startsWithL source_lang ("khm_".data) then
      (pyStrip (rem.take (min rem.length (safe * 2))),
       pyStrip (rem.drop (min rem.length (safe * 2))))
    else
      match pyRfindBefore rem ' ' (min rem.length (safe * 2)) with
      | some sp =>
        if 0 < sp then (pyStrip (rem.take sp), pyStrip (rem.drop sp))
        else
          (pyStrip (rem.take (min rem.length (safe * 2))),
           pyStrip (rem.drop (min rem.length (safe * 2))))
      | none =>
        (pyStrip (rem.take (min rem.length (safe * 2))),
         pyStrip (rem.drop (min rem.length (safe * 2))))

/-- One cut of the chunking loop, main.py lines 196-281: the produced
`(chunk_text, remaining)` before the post-cut verification, dispatching on
the `if chunk_text and best_break > 0` guard of line 221. -/
def cutChunk (tok : List Char → Nat) (safe : Nat) (source_lang rem : List Char) :
    List Char × List Char :=
  if 0 < bsearchBest tok safe rem ∧ rem.take (bsearchBest tok safe rem) ≠ [] then
    cutFound source_lang rem (bsearchBest tok safe rem)
  else cutFallback safe source_lang rem

/-- The post-cut verification of main.py lines 284-314, applied to a
non-empty `chunk_text` `c` with the already advanced remaining text `rem`.
Note the faithful modelling of the reassignment order of the source: on
both reduction paths `chunk_text` is reassigned to the shortened strip
first, and the leftover prepended to `remaining` is then computed from the
new, already shortened `chunk_text` — so that leftover is always empty.
On the last-resort path, `int(len(chunk_text) * 0.8)` truncates to exactly
`4 * len / 5` at these magnitudes. -/
def verifyChunk (tok : List Char → Nat) (safe : Nat) (c rem : List Char) :
    List Char × List Char :=
  if tok c ≤ safe then (c, rem)
  else
    if c.take (bsearchBest tok safe c) ≠ [] then
      (pyStrip (c.take (bsearchBest tok safe c)),
       (pyStrip (c.take (bsearchBest tok safe c))).drop (bsearchBest tok safe c) ++ rem)
    else
      (pyStrip (c.take (4 * c.length / 5)),
       (pyStrip (c.take (4 * c.length / 5))).drop (4 * c.length / 5) ++ rem)

/-- One iteration of the `while remaining:` loop: cut a chunk, and when the
cut produced a non-empty `chunk_text` (the `if chunk_text:` guard of line
283) verify it and append the — possibly meanwhile emptied — result. -/
def chunkStep (tok : List Char → Nat) (safe : Nat) (source_lang rem : List Char) :
    Option (List Char) × List Char :=
  if (cutChunk tok safe source_lang rem).1 = [] then
    (none, (cutChunk tok safe source_lang rem).2)
  else
    (some (verifyChunk tok safe (cutChunk tok safe source_lang rem).1
            (cutChunk tok safe source_lang rem).2).1,
     (verifyChunk tok safe (cutChunk tok safe source_lang rem).1
       (cutChunk tok safe source_lang rem).2).2)

/-- The `while remaining:` loop of main.py lines 196-317, with fuel.
Chunks are accumulated in reverse and flipped on exit. -/
def splitLoop (tok : List Char → Nat) (safe : Nat) (source_lang : List Char) :
    Nat → List Char → List (List Char) → Option (List (List Char))
  | 0, rem, acc => if rem = [] then some acc.reverse else none
  | fuel + 1, rem, acc =>
    if rem = [] then some acc.reverse
    else
      splitLoop tok safe source_lang fuel (chunkStep tok safe source_lang rem).2
        (match (chunkStep tok safe source_lang rem).1 with
         | some c => c :: acc
         | none => acc)

/-- split_text_into_chunks, main.py lines 165-319.  The internal safe
budget is `max_tokens - 50` (line 182); the short-circuit of lines 184-185
returns the text itself, untrimmed, as the single chunk; otherwise the loop
starts from the trimmed text.  The `overlap` parameter of the source is
never used in its body and is omitted.  `Nat` subtraction matches the
Python value for every `max_tokens ≥ 50`, which covers every use in the
repository (the handler passes 974, the default is 1024). -/
def split_text_into_chunks (tok : List Char → Nat) (text source_lang : List Char)
    (max_tokens : Nat := MAX_INPUT_TOKENS) : Option (List (List Char)) :=
  if tok text ≤ max_tokens - 50 then some [text]
  else splitLoop tok (max_tokens - 50) source_lang
    ((pyStrip text).length + 1) (pyStrip text) []

/-- A Python number as returned by get_token_count: either an int or a
float.  In the only place a float arises — `len(text) // 2.5` — its value
is the exact integer `⌊len/2.5⌋ = 2·len/5` (the IEEE double evaluation of
`len // 2.5` is exact at these magnitudes), so the payload records that
integral value. -/
inductive PyNum where
  | intVal (n : Nat) : PyNum
  | floatVal (n : Nat) : PyNum
deriving DecidableEq, Repr

/-- Whether a `PyNum` is a Python int. -/
def PyNum.isInt : PyNum → Bool
  | .intVal _ => true
  | .floatVal _ => false

/-- get_token_count, main.py lines 144-162.  `encodeResult` is the outcome
of the tokenizer collaborator call `tokenizer.encode(text, add_special_tokens=False)`:
`some n` is a successful count, `none` means the call raised and the
character-ratio fallback runs.  The function itself never raises. -/
def get_token_count (encodeResult : Option Nat) (text source_lang : List Char) : PyNum :=
  match encodeResult with
  | some n => .intVal n
  | none =>
    if startsWithL source_lang ("khm_".data) || startsWithL source_lang ("zho_".data)
        || startsWithL source_lang ("jpn_".data) then
      -- line 159: `len(text) // 2.5` — floor division by a float yields a float
      .floatVal (2 * text.length / 5)
    else
      -- line 162: `len(text) // 4` — int floor division
      .intVal (text.length / 4)

/-- The placeholder of main.py line 397: `f"[Translation error in chunk {n}]"`
with `n = i + 1` the 1-indexed chunk number. -/
def placeholderChunk (n : Nat) : List Char :=
  "[Translation error in chunk ".data ++ (Nat.repr n).data ++ "]".data

/-- The chunk translation loop of main.py lines 382-397, carrying the
running enumerate index: each chunk is translated by the collaborator, and
a failed call contributes the placeholder instead of aborting the rest. -/
def translateAllGo (tr : Nat → List Char → Option (List Char)) :
    Nat → List (List Char) → List (List Char)
  | _, [] => []
  | i, c :: cs =>
    (match tr i c with
     | some t => t
     | none => placeholderChunk (i + 1)) :: translateAllGo tr (i + 1) cs

/-- The chunk translation loop started at enumerate index 0. -/
def translateAll (tr : Nat → List Char → Option (List Char))
    (chunks : List (List Char)) : List (List Char) :=
  translateAllGo tr 0 chunks

/-- First index at which `pat` occurs in `s` (Python `s.find(pat)` /
`pat in s`). -/
def findOcc (s pat : List Char) : Option Nat :=
  if startsWithL s pat then some 0
  else
    match s with
    | [] => none
    | _ :: t => (findOcc t pat).map (· + 1)

/-- Python `s.split(sep)` for a non-empty separator, with fuel: split on
every non-overlapping occurrence, left to right, keeping empty pieces.
`s.length` steps of fuel always suffice for a non-empty separator. -/
def pySplitAux (sep : List Char) : Nat → List Char → List (List Char)
  | 0, s => [s]
  | fuel + 1, s =>
    match findOcc s sep with
    | none => [s]
    | some i => s.take i :: pySplitAux sep fuel (s.drop (i + sep.length))

/-- Python `s.split(sep)`. -/
def pySplit (s sep : List Char) : List (List Char) :=
  pySplitAux sep s.length s

/-- Python `s.replace(pat, rep, n)` for a non-empty pattern: replace the
first (at most) `n` non-overlapping occurrences, left to right; the
replacement text is not rescanned. -/
def pyReplaceN : List Char → List Char → List Char → Nat → List Char
  | s, _, _, 0 => s
  | s, pat, rep, n + 1 =>
    match findOcc s pat with
    | none => s
    | some i => s.take i ++ rep ++ pyReplaceN (s.drop (i + pat.length)) pat rep n

/-- The double-newline paragraph separator. -/
def nnSep : List Char := ['\n', '\n']

/-- The pattern "period plus space". -/
def dotSpace : List Char := ['.', ' ']

/-- The replacement "period plus double newline". -/
def dotNN : List Char := ['.', '\n', '\n']

/-- The reassembly of main.py lines 399-410: join the translated chunks
with a single space; when the original text contains a double newline and
splits into more than one paragraph, replace the first `P - 1` occurrences
of ". " in the joined output by ".\n\n". -/
def reassemble (translated_chunks : List (List Char)) (original : List Char) :
    List Char :=
  if (findOcc original nnSep).isSome then
    if 1 < (pySplit original nnSep).length then
      pyReplaceN (List.intercalate [' '] translated_chunks) dotSpace dotNN
        ((pySplit original nnSep).length - 1)
    else List.intercalate [' '] translated_chunks
  else List.intercalate [' '] translated_chunks

/-- TranslationRequest, main.py lines 36-39 (the field validation
`min_length=1, max_length=MAX_TEXT_LENGTH` is the predicate
`requestValid` below, enforced by pydantic before the handler runs). -/
structure TranslationRequest where
  text : List Char
  source_lang : List Char
  target_lang : List Char
deriving DecidableEq, Repr

/-- The pydantic field validation of TranslationRequest. -/
def requestValid (req : TranslationRequest) : Prop :=
  1 ≤ req.text.length ∧ req.text.length ≤ MAX_TEXT_LENGTH

/-- TranslationResponse, main.py lines 42-45. -/
structure TranslationResponse where
  translated_text : List Char
  source_lang : List Char
  target_lang : List Char
deriving DecidableEq, Repr

/-- The outcome of the translate handler: a response, or an HTTPException
with its status code and detail. -/
inductive TResult where
  | ok (resp : TranslationResponse) : TResult
  | httpError (status : Nat) (detail : List Char) : TResult
deriving DecidableEq, Repr

/-- Detail of the 503 raised at main.py lines 340-344. -/
def detailNotLoaded : List Char :=
  "Translation model is not loaded. Please wait for the model to initialize.".data

/-- Detail of the 400 raised at main.py lines 347-351, with
MAX_TEXT_LENGTH = 5000 interpolated. -/
def detailTooLong : List Char :=
  "Text too long. Maximum length is 5000 characters.".data

/-- Detail of the 400 raised at main.py lines 353-357. -/
def detailEmpty : List Char :=
  "Text cannot be empty.".data

/-- Detail of the 500 raised at main.py lines 440-445 (the source appends
the exception message, which is outside the model). -/
def detailTranslationFailed : List Char :=
  "Translation failed".data

/-- The body of the try block of translate, main.py lines 359-432: count
tokens, choose single-shot versus chunked against
`safe_max_tokens = MAX_INPUT_TOKENS - 50` (line 364, the value 974), and
on the chunked path call split_text_into_chunks with
`max_tokens = safe_max_tokens` (lines 373-377), translate the chunks and
reassemble.  A raising single-shot collaborator call is caught by the
outer handler as a 500.  `none` models a chunking loop that exceeds its
fuel, which the termination theorem rules out here. -/
def translateCore (tok : List Char → Nat) (tr : Nat → List Char → Option (List Char))
    (req : TranslationRequest) : Option TResult :=
  if MAX_INPUT_TOKENS - 50 < tok req.text then
    match split_text_into_chunks tok req.text req.source_lang (MAX_INPUT_TOKENS - 50) with
    | none => none
    | some chunks =>
      some (.ok ⟨reassemble (translateAll tr chunks) req.text,
                 req.source_lang, req.target_lang⟩)
  else
    match tr 0 req.text with
    | some t => some (.ok ⟨t, req.source_lang, req.target_lang⟩)
    | none => some (.httpError 500 detailTranslationFailed)

/-- The translate handler, main.py lines 322-445: model-loaded check
(503), length ceiling (400), empty-after-trim (400), then the core. -/
def translate (model_loaded : Bool) (tok : List Char → Nat)
    (tr : Nat → List Char → Option (List Char)) (req : TranslationRequest) :
    Option TResult :=
  if model_loaded = false then some (.httpError 503 detailNotLoaded)
  else if MAX_TEXT_LENGTH < req.text.length then some (.httpError 400 detailTooLong)
  else if pyStrip req.text = [] then some (.httpError 400 detailEmpty)
  else translateCore tok tr req

/-- The non-whitespace content of a text, the quantity preserved by the
coverage property. -/
def nonWhitespaceContent (l : List Char) : List Char :=
  l.filter (fun c => !(pyIsSpace c))

/-- A concrete dense-script token oracle for counterexamples: every
character counts as 1000 tokens.  It is monotone in every sense (it only
depends on the length), yet a single character already exceeds the safe
budget of 974. -/
def tokThousand (s : List Char) : Nat := 1000 * s.length

/-- A concrete token oracle counting 31 tokens per character. -/
def tokThirtyOne (s : List Char) : Nat := 31 * s.length

/-- A concrete translation collaborator that fails exactly on the second
call (enumerate index 1) and otherwise translates by tagging the chunk. -/
def trFailSecond (i : Nat) (c : List Char) : Option (List Char) :=
  if i = 1 then none else some ('T' :: c)

/-! ## Basic lemmas: contiguous substrings, stripping, scans, binary search -/

/-- `embeds a b`: `a` is a contiguous substring of `b`. -/
def embeds (a b : List Char) : Prop := ∃ p s, p ++ a ++ s = b

theorem embeds_tok_le (tok : List Char → Nat)
    (hm : ∀ pre mid suf : List Char, tok mid ≤ tok (pre ++ mid ++ suf))
    {a b : List Char} (h : embeds a b) : tok a ≤ tok b := by
  obtain ⟨p, s, rfl⟩ := h
  exact hm p a s

theorem embeds_length_le {a b : List Char} (h : embeds a b) : a.length ≤ b.length := by
  obtain ⟨p, s, rfl⟩ := h
  simp only [List.length_append]
  omega

theorem embeds_trans {a b c : List Char} (h1 : embeds a b) (h2 : embeds b c) :
    embeds a c := by
  obtain ⟨p1, s1, rfl⟩ := h1
  obtain ⟨p2, s2, rfl⟩ := h2
  exact ⟨p2 ++ p1, s1 ++ s2, by simp [List.append_assoc]⟩

theorem take_embeds (l : List Char) (n : Nat) : embeds (l.take n) l :=
  ⟨[], l.drop n, by simp⟩

theorem pyStrip_embeds (l : List Char) : embeds (pyStrip l) l := by
  refine ⟨l.takeWhile pyIsSpace,
    ((l.dropWhile pyIsSpace).reverse.takeWhile pyIsSpace).reverse, ?_⟩
  have h2 := List.takeWhile_append_dropWhile pyIsSpace (l.dropWhile pyIsSpace).reverse
  have h3 : pyStrip l ++ ((l.dropWhile pyIsSpace).reverse.takeWhile pyIsSpace).reverse =
      l.dropWhile pyIsSpace := by
    have h4 := congrArg List.reverse h2
    rw [List.reverse_append] at h4
    simpa [pyStrip] using h4
  calc l.takeWhile pyIsSpace ++ pyStrip l ++
        ((l.dropWhile pyIsSpace).reverse.takeWhile pyIsSpace).reverse
      = l.takeWhile pyIsSpace ++ (pyStrip l ++
        ((l.dropWhile pyIsSpace).reverse.takeWhile pyIsSpace).reverse) := by
        rw [List.append_assoc]
    _ = l.takeWhile pyIsSpace ++ l.dropWhile pyIsSpace := by rw [h3]
    _ = l := List.takeWhile_append_dropWhile pyIsSpace l

theorem pyStrip_length_le (l : List Char) : (pyStrip l).length ≤ l.length :=
  embeds_length_le (pyStrip_embeds l)

theorem take_ne_nil_of_pos {l : List Char} {n : Nat} (hl : l ≠ []) (hn : 0 < n) :
    l.take n ≠ [] := by
  cases l with
  | nil => exact absurd rfl hl
  | cons c t =>
    cases n with
    | zero => omega
    | succ m => simp

theorem findLastIdx_spec {p : Nat → Bool} :
    ∀ {n i : Nat}, findLastIdx p n = some i → i < n ∧ p i = true := by
  intro n
  induction n with
  | zero => intro i h; simp [findLastIdx] at h
  | succ m ih =>
    intro i h
    unfold findLastIdx at h
    by_cases hp : p m
    · rw [if_pos hp] at h
      cases h
      exact ⟨Nat.lt_succ_self m, hp⟩
    · rw [if_neg hp] at h
      obtain ⟨h1, h2⟩ := ih h
      exact ⟨Nat.lt_succ_of_lt h1, h2⟩

theorem findLastIdxFrom_spec {p : Nat → Bool} {stop : Nat} :
    ∀ {n i : Nat}, findLastIdxFrom p stop n = some i →
      stop < i ∧ i < n ∧ p i = true := by
  intro n
  induction n with
  | zero => intro i h; simp [findLastIdxFrom] at h
  | succ m ih =>
    intro i h
    unfold findLastIdxFrom at h
    by_cases hs : m ≤ stop
    · rw [if_pos hs] at h; exact absurd h (by simp)
    · rw [if_neg hs] at h
      by_cases hp : p m
      · rw [if_pos hp] at h
        cases h
        exact ⟨by omega, Nat.lt_succ_self m, hp⟩
      · rw [if_neg hp] at h
        obtain ⟨h1, h2, h3⟩ := ih h
        exact ⟨h1, Nat.lt_succ_of_lt h2, h3⟩

theorem bsearchGo_inv (tok : List Char → Nat) (safe : Nat) (s : List Char) :
    ∀ (fuel low high best : Nat), (best = 0 ∨ tok (s.take best) ≤ safe) →
      (bsearchGo tok safe s fuel low high best = 0 ∨
        tok (s.take (bsearchGo tok safe s fuel low high best)) ≤ safe) := by
  intro fuel
  induction fuel with
  | zero => intro low high best hb; simpa [bsearchGo] using hb
  | succ f ih =>
    intro low high best hb
    by_cases h1 : low ≤ high
    · by_cases h2 : tok (s.take ((low + high) / 2)) ≤ safe
      · simpa [bsearchGo, h1, h2] using
          ih ((low + high) / 2 + 1) high ((low + high) / 2) (Or.inr h2)
      · simpa [bsearchGo, h1, h2] using ih low ((low + high) / 2 - 1) best hb
    · simpa [bsearchGo, h1] using hb

theorem bsearchGo_pos (tok : List Char → Nat) (safe : Nat) (s : List Char) :
    ∀ (fuel low high best : Nat), high + 1 - low ≤ fuel → 1 ≤ low →
      (1 ≤ best ∨ (low = 1 ∧ 1 ≤ high ∧ tok (s.take 1) ≤ safe)) →
      1 ≤ bsearchGo tok safe s fuel low high best := by
  intro fuel
  induction fuel with
  | zero =>
    intro low high best hf hl hd
    rcases hd with h | ⟨h1, h2, _⟩
    · simpa [bsearchGo] using h
    · omega
  | succ f ih =>
    intro low high best hf hl hd
    by_cases h1 : low ≤ high
    · have hmidlb : low ≤ (low + high) / 2 := by omega
      have hmidub : (low + high) / 2 ≤ high := by omega
      by_cases h2 : tok (s.take ((low + high) / 2)) ≤ safe
      · simpa [bsearchGo, h1, h2] using
          ih ((low + high) / 2 + 1) high ((low + high) / 2) (by omega) (by omega)
            (Or.inl (by omega))
      · rcases hd with h | ⟨hlo, hhi, hfit⟩
        · simpa [bsearchGo, h1, h2] using
            ih low ((low + high) / 2 - 1) best (by omega) hl (Or.inl h)
        · have hm1 : (low + high) / 2 ≠ 1 := by
            intro hx
            rw [hx] at h2
            exact h2 hfit
          simpa [bsearchGo, h1, h2] using
            ih low ((low + high) / 2 - 1) best (by omega) hl
              (Or.inr ⟨hlo, by omega, hfit⟩)
    · rcases hd with h | ⟨hlo, hhi, _⟩
      · simpa [bsearchGo, h1] using h
      · omega

theorem bsearchBest_fits (tok : List Char → Nat) (safe : Nat) (s : List Char)
    (hs : s ≠ []) (h1 : tok (s.take 1) ≤ safe) :
    1 ≤ bsearchBest tok safe s ∧ tok (s.take (bsearchBest tok safe s)) ≤ safe := by
  have hp : 1 ≤ bsearchGo tok safe s s.length 1 s.length 0 := by
    apply bsearchGo_pos tok safe s s.length 1 s.length 0 (by omega) (by omega)
    exact Or.inr ⟨rfl, List.length_pos.mpr hs, h1⟩
  rcases bsearchGo_inv tok safe s s.length 1 s.length 0 (Or.inl rfl) with h | h
  · rw [bsearchBest]
    omega
  · exact ⟨hp, h⟩

/-! ## Shape and budget lemmas for one iteration of the chunking loop -/

theorem cutFound_form (lang rem : List Char) (best : Nat) (hb : 1 ≤ best) :
    ∃ k, 1 ≤ k ∧ k ≤ best ∧
      cutFound lang rem best = (pyStrip (rem.take k), pyStrip (rem.drop k)) := by
  have hle : (rem.take best).length ≤ best := by
    rw [List.length_take]
    exact Nat.min_le_left _ _
  unfold cutFound
  rcases hfs : findSentenceIdx ((rem.take best).drop (best - best / 5)) with _ | i
  · by_cases hk : startsWithL lang ("khm_".data)
    · exact ⟨best, hb, le_refl _, by rw [if_pos hk]⟩
    · rw [if_neg hk]
      rcases hsp : pyRfindFrom (rem.take best) ' ' (best - best / 5) with _ | sp
      · exact ⟨best, hb, le_refl _, rfl⟩
      · by_cases hg : 4 * (best - best / 5) < 5 * sp
        · have hsp' : findLastIdx
              (fun i => decide ((best - best / 5) ≤ i) && ((rem.take best).getD i ' ' == ' '))
              (rem.take best).length = some sp := hsp
          obtain ⟨hlt, _⟩ := findLastIdx_spec hsp'
          exact ⟨sp, by omega, by omega, by dsimp only; rw [if_pos hg]⟩
        · exact ⟨best, hb, le_refl _, by dsimp only; rw [if_neg hg]⟩
  · have hfs' : findLastIdx (sentCond ((rem.take best).drop (best - best / 5)))
        ((rem.take best).drop (best - best / 5)).length = some i := hfs
    obtain ⟨hlt, _⟩ := findLastIdx_spec hfs'
    have hlen : ((rem.take best).drop (best - best / 5)).length =
        (rem.take best).length - (best - best / 5) := List.length_drop _ _
    exact ⟨(best - best / 5) + i + 1, by omega, by omega, rfl⟩

theorem cutFallback_form (safe : Nat) (lang rem : List Char)
    (hsafe : 1 ≤ safe) (hrem : rem ≠ []) :
    ∃ k, 1 ≤ k ∧
      cutFallback safe lang rem = (pyStrip (rem.take k), pyStrip (rem.drop k)) := by
  have hfb : 1 ≤ min rem.length (safe * 2) := by
    have := List.length_pos.mpr hrem
    omega
  unfold cutFallback
  rcases hfs : findSentenceFallbackIdx rem (min rem.length (safe * 2)) with _ | i
  · by_cases hk : startsWithL lang ("khm_".data)
    · exact ⟨min rem.length (safe * 2), hfb, by rw [if_pos hk]⟩
    · rw [if_neg hk]
      rcases hsp : pyRfindBefore rem ' ' (min rem.length (safe * 2)) with _ | sp
      · exact ⟨min rem.length (safe * 2), hfb, rfl⟩
      · by_cases hg : 0 < sp
        · exact ⟨sp, hg, by dsimp only; rw [if_pos hg]⟩
        · exact ⟨min rem.length (safe * 2), hfb, by dsimp only; rw [if_neg hg]⟩
  · exact ⟨i + 1, by omega, rfl⟩

theorem cutChunk_form (tok : List Char → Nat) (safe : Nat) (lang rem : List Char)
    (hsafe : 1 ≤ safe) (hrem : rem ≠ []) :
    ∃ k, 1 ≤ k ∧
      cutChunk tok safe lang rem = (pyStrip (rem.take k), pyStrip (rem.drop k)) := by
  unfold cutChunk
  by_cases hc : 0 < bsearchBest tok safe rem ∧ rem.take (bsearchBest tok safe rem) ≠ []
  · rw [if_pos hc]
    obtain ⟨k, h1, _, h3⟩ := cutFound_form lang rem (bsearchBest tok safe rem) hc.1
    exact ⟨k, h1, h3⟩
  · rw [if_neg hc]
    exact cutFallback_form safe lang rem hsafe hrem

theorem cutChunk_fst_fits (tok : List Char → Nat) (safe : Nat) (lang rem : List Char)
    (hm : ∀ pre mid suf : List Char, tok mid ≤ tok (pre ++ mid ++ suf))
    (hc : ∀ ch : Char, tok [ch] ≤ safe) (hrem : rem ≠ []) :
    tok (cutChunk tok safe lang rem).1 ≤ safe := by
  have h1 : tok (rem.take 1) ≤ safe := by
    cases rem with
    | nil => exact absurd rfl hrem
    | cons a t => simpa using hc a
  obtain ⟨hbpos, hbfit⟩ := bsearchBest_fits tok safe rem hrem h1
  have hcond : 0 < bsearchBest tok safe rem ∧ rem.take (bsearchBest tok safe rem) ≠ [] :=
    ⟨hbpos, take_ne_nil_of_pos hrem hbpos⟩
  unfold cutChunk
  rw [if_pos hcond]
  obtain ⟨k, _, hk2, heq⟩ := cutFound_form lang rem (bsearchBest tok safe rem) hbpos
  rw [heq]
  have e2 : embeds (rem.take k) (rem.take (bsearchBest tok safe rem)) := by
    have ht : (rem.take (bsearchBest tok safe rem)).take k = rem.take k := by
      rw [List.take_take]
      congr 1
      omega
    rw [← ht]
    exact take_embeds _ _
  exact le_trans (embeds_tok_le tok hm (embeds_trans (pyStrip_embeds _) e2)) hbfit

theorem verifyChunk_snd (tok : List Char → Nat) (safe : Nat) (c rem : List Char) :
    (verifyChunk tok safe c rem).2 = rem := by
  unfold verifyChunk
  by_cases h1 : tok c ≤ safe
  · rw [if_pos h1]
  · rw [if_neg h1]
    by_cases h2 : c.take (bsearchBest tok safe c) ≠ []
    · rw [if_pos h2]
      have hl : (pyStrip (c.take (bsearchBest tok safe c))).length ≤
          bsearchBest tok safe c :=
        le_trans (pyStrip_length_le _)
          (by rw [List.length_take]; exact Nat.min_le_left _ _)
      simp [List.drop_eq_nil_of_le hl]
    · rw [if_neg h2]
      have hl : (pyStrip (c.take (4 * c.length / 5))).length ≤ 4 * c.length / 5 :=
        le_trans (pyStrip_length_le _)
          (by rw [List.length_take]; exact Nat.min_le_left _ _)
      simp [List.drop_eq_nil_of_le hl]

theorem verifyChunk_of_fits (tok : List Char → Nat) (safe : Nat) (c rem : List Char)
    (h : tok c ≤ safe) : verifyChunk tok safe c rem = (c, rem) := by
  unfold verifyChunk
  rw [if_pos h]

theorem chunkStep_snd_lt (tok : List Char → Nat) (safe : Nat) (lang rem : List Char)
    (hsafe : 1 ≤ safe) (hrem : rem ≠ []) :
    (chunkStep tok safe lang rem).2.length < rem.length := by
  obtain ⟨k, hk, hcut⟩ := cutChunk_form tok safe lang rem hsafe hrem
  have hlt : (pyStrip (rem.drop k)).length < rem.length := by
    have ha : (pyStrip (rem.drop k)).length ≤ (rem.drop k).length := pyStrip_length_le _
    have hb : (rem.drop k).length = rem.length - k := List.length_drop _ _
    have hcpos : 0 < rem.length := List.length_pos.mpr hrem
    omega
  unfold chunkStep
  rw [hcut]
  by_cases hempty : pyStrip (rem.take k) = []
  · rw [if_pos hempty]
    exact hlt
  · rw [if_neg hempty]
    rw [verifyChunk_snd]
    exact hlt

theorem chunkStep_fst_fits (tok : List Char → Nat) (safe : Nat) (lang rem : List Char)
    (hm : ∀ pre mid suf : List Char, tok mid ≤ tok (pre ++ mid ++ suf))
    (hc : ∀ ch : Char, tok [ch] ≤ safe) (hrem : rem ≠ []) {c : List Char}
    (hst : (chunkStep tok safe lang rem).1 = some c) : tok c ≤ safe := by
  have hfit := cutChunk_fst_fits tok safe lang rem hm hc hrem
  unfold chunkStep at hst
  by_cases h1 : (cutChunk tok safe lang rem).1 = []
  · rw [if_pos h1] at hst
    exact absurd hst (by simp)
  · rw [if_neg h1] at hst
    rw [verifyChunk_of_fits tok safe _ _ hfit] at hst
    have h2 : (cutChunk tok safe lang rem).1 = c := by simpa using hst
    rw [← h2]
    exact hfit

/-! ## Loop lemmas: sufficiency of the fuel and budget compliance -/

theorem splitLoop_isSome (tok : List Char → Nat) (safe : Nat) (lang : List Char)
    (hsafe : 1 ≤ safe) :
    ∀ (fuel : Nat) (rem : List Char) (acc : List (List Char)),
      rem.length < fuel → (splitLoop tok safe lang fuel rem acc).isSome := by
  intro fuel
  induction fuel with
  | zero => intro rem acc h; omega
  | succ f ih =>
    intro rem acc h
    by_cases hr : rem = []
    · simp [splitLoop, hr]
    · have hlt := chunkStep_snd_lt tok safe lang rem hsafe hr
      simp only [splitLoop, if_neg hr]
      exact ih _ _ (by omega)

theorem splitLoop_fits (tok : List Char → Nat) (safe : Nat) (lang : List Char)
    (hm : ∀ pre mid suf : List Char, tok mid ≤ tok (pre ++ mid ++ suf))
    (hc : ∀ ch : Char, tok [ch] ≤ safe) :
    ∀ (fuel : Nat) (rem : List Char) (acc out : List (List Char)),
      splitLoop tok safe lang fuel rem acc = some out →
      (∀ x ∈ acc, tok x ≤ safe) → ∀ x ∈ out, tok x ≤ safe := by
  intro fuel
  induction fuel with
  | zero =>
    intro rem acc out h hacc x hx
    by_cases hr : rem = []
    · simp only [splitLoop, if_pos hr, Option.some_inj] at h
      rw [← h] at hx
      exact hacc x (List.mem_reverse.mp hx)
    · simp [splitLoop, hr] at h
  | succ f ih =>
    intro rem acc out h hacc x hx
    by_cases hr : rem = []
    · simp only [splitLoop, if_pos hr, Option.some_inj] at h
      rw [← h] at hx
      exact hacc x (List.mem_reverse.mp hx)
    · simp only [splitLoop, if_neg hr] at h
      refine ih _ _ _ h ?_ x hx
      intro y hy
      rcases hst : (chunkStep tok safe lang rem).1 with _ | c
      · rw [hst] at hy
        exact hacc y hy
      · rw [hst] at hy
        rcases List.mem_cons.mp hy with h1 | h1
        · rw [h1]
          exact chunkStep_fst_fits tok safe lang rem hm hc hr hst
        · exact hacc y h1

/-! ## Orchestration, split and handler helper lemmas -/

theorem translateAllGo_length (tr : Nat → List Char → Option (List Char)) :
    ∀ (cs : List (List Char)) (i : Nat), (translateAllGo tr i cs).length = cs.length := by
  intro cs
  induction cs with
  | nil => intro i; rfl
  | cons c cs ih => intro i; simp [translateAllGo, ih]

theorem translateAllGo_getD (tr : Nat → List Char → Option (List Char)) :
    ∀ (cs : List (List Char)) (i j : Nat), j < cs.length →
      (translateAllGo tr i cs).getD j [] =
        (match tr (i + j) (cs.getD j []) with
         | some t => t
         | none => placeholderChunk (i + j + 1)) := by
  intro cs
  induction cs with
  | nil => intro i j h; simp at h
  | cons c cs ih =>
    intro i j h
    cases j with
    | zero => simp [translateAllGo]
    | succ m =>
      have h2 : m < cs.length := by simpa using h
      have hrec := ih (i + 1) m h2
      have e : i + 1 + m = i + (m + 1) := by omega
      simp only [translateAllGo, List.getD_cons_succ]
      rw [hrec, e]

theorem startsWithL_length : ∀ {s p : List Char}, startsWithL s p = true →
    p.length ≤ s.length := by
  intro s
  induction s with
  | nil =>
    intro p h
    cases p with
    | nil => simp
    | cons b q => simp [startsWithL] at h
  | cons a t ih =>
    intro p h
    cases p with
    | nil => simp
    | cons b q =>
      simp only [startsWithL, Bool.and_eq_true, beq_iff_eq] at h
      have := ih h.2
      simp only [List.length_cons]
      omega

theorem findOcc_le {pat : List Char} : ∀ {s : List Char} {i : Nat},
    findOcc s pat = some i → i + pat.length ≤ s.length := by
  intro s
  induction s with
  | nil =>
    intro i h
    unfold findOcc at h
    by_cases hp : startsWithL [] pat
    · rw [if_pos hp] at h
      cases h
      simpa using startsWithL_length hp
    · rw [if_neg hp] at h
      exact absurd h (by simp)
  | cons a t ih =>
    intro i h
    unfold findOcc at h
    by_cases hp : startsWithL (a :: t) pat
    · rw [if_pos hp] at h
      cases h
      simpa using startsWithL_length hp
    · rw [if_neg hp] at h
      dsimp only at h
      rcases ho : findOcc t pat with _ | j
      · rw [ho] at h
        exact absurd h (by simp)
      · rw [ho] at h
        simp at h
        have := ih ho
        simp only [List.length_cons]
        omega

theorem pySplitAux_len_pos (pat : List Char) : ∀ (fuel : Nat) (s : List Char),
    1 ≤ (pySplitAux pat fuel s).length := by
  intro fuel s
  cases fuel with
  | zero => simp [pySplitAux]
  | succ m =>
    unfold pySplitAux
    rcases findOcc s pat with _ | i <;> simp

theorem pySplit_len_of_found {s pat : List Char} {i : Nat} (hpat : pat ≠ [])
    (h : findOcc s pat = some i) : 1 < (pySplit s pat).length := by
  have hip : i + pat.length ≤ s.length := findOcc_le h
  have hpl : 1 ≤ pat.length := by
    cases pat with
    | nil => exact absurd rfl hpat
    | cons b q => simp
  obtain ⟨m, hm⟩ : ∃ m, s.length = m + 1 := ⟨s.length - 1, by omega⟩
  have hone := pySplitAux_len_pos pat m (s.drop (i + pat.length))
  rw [pySplit, hm]
  simp only [pySplitAux, h, List.length_cons]
  omega

theorem translateCore_ne_tooLong (tok : List Char → Nat)
    (tr : Nat → List Char → Option (List Char)) (req : TranslationRequest) :
    translateCore tok tr req ≠ some (.httpError 400 detailTooLong) := by
  unfold translateCore
  by_cases h : MAX_INPUT_TOKENS - 50 < tok req.text
  · rw [if_pos h]
    rcases split_text_into_chunks tok req.text req.source_lang (MAX_INPUT_TOKENS - 50)
      with _ | cs
    · simp
    · simp
  · rw [if_neg h]
    rcases tr 0 req.text with _ | t
    · intro hx
      injection hx with h1
      injection h1 with h2 h3
      omega
    · simp

/-! ## Claim theorems -/

/-- C1 (code bug, evaluated at the failing input): the coverage property
fails on the post-cut verification path.  With the monotone oracle
`tokThousand` (1000 tokens per character) and the default
`max_tokens = MAX_INPUT_TOKENS`, splitting the text "abc" triggers the
last-resort 80% reduction; because the source reassigns `chunk_text`
before computing `chunk_text[reduced_length:]`, the cut-off remainder
prepended to `remaining` is always empty, so the final chunk list is
["ab"] and the character 'c' of the original text is dropped: the
concatenated chunks do not reconstruct the non-whitespace content of the
input. -/
theorem c1_coverage_dropped_on_reverify :
    split_text_into_chunks tokThousand ("abc".data) ("eng_Latn".data) MAX_INPUT_TOKENS =
      some [['a', 'b']] ∧
    nonWhitespaceContent (List.flatten [['a', 'b']]) ≠
      nonWhitespaceContent ("abc".data) := by
  exact ⟨by decide, by decide⟩

/-- C2 (counterexample): budget compliance fails as stated.  With the
monotone oracle `tokThousand` and the default `max_tokens`, the chunk
"ab" produced by the last-resort 80% reduction counts 2000 tokens, far
above the safe budget `MAX_INPUT_TOKENS - 50 = 974`; the 80% reduction is
never re-verified before the chunk is appended. -/
theorem c2_budget_compliance_cex :
    split_text_into_chunks tokThousand ("abc".data) ("eng_Latn".data) MAX_INPUT_TOKENS =
      some [['a', 'b']] ∧
    ¬ tokThousand ['a', 'b'] ≤ MAX_INPUT_TOKENS - 50 := by
  exact ⟨by decide, by decide⟩

/-- C2 (amended): budget compliance holds under the additional assumptions
that the token oracle is monotone with respect to contiguous substrings
and that every single character fits the safe budget `max_tokens - 50`.
Under these assumptions the binary search always finds a non-empty fitting
prefix, every boundary refinement only shrinks it, and the post-cut
verification passes, so every chunk in the returned list — on the
short-circuit path and on the loop path alike — satisfies the budget. -/
theorem c2_budget_compliance_amended (tok : List Char → Nat)
    (text source_lang : List Char) (max_tokens : Nat)
    (hm : ∀ pre mid suf : List Char, tok mid ≤ tok (pre ++ mid ++ suf))
    (hc : ∀ ch : Char, tok [ch] ≤ max_tokens - 50)
    (chunks : List (List Char))
    (hs : split_text_into_chunks tok text source_lang max_tokens = some chunks) :
    ∀ c ∈ chunks, tok c ≤ max_tokens - 50 := by
  unfold split_text_into_chunks at hs
  by_cases h : tok text ≤ max_tokens - 50
  · rw [if_pos h] at hs
    have he : [text] = chunks := by simpa using hs
    rw [← he]
    intro c hcm
    have := List.mem_singleton.mp hcm
    rw [this]
    exact h
  · rw [if_neg h] at hs
    exact splitLoop_fits tok (max_tokens - 50) source_lang hm hc _ _ _ _ hs (by simp)

/-- C2 amended, witness at a concrete input: the length oracle with
`max_tokens = 52` splits "abcd" into "ab" and "cd", both within the safe
budget of 2. -/
theorem c2_budget_compliance_amended_witness :
    List.length ("ab".data) ≤ 52 - 50 ∧ List.length ("cd".data) ≤ 52 - 50 := by
  have h := c2_budget_compliance_amended List.length ("abcd".data) ("eng_Latn".data) 52
    (fun p m s => by simp only [List.length_append]; omega)
    (fun ch => by simp)
    ["ab".data, "cd".data] (by decide)
  exact ⟨h ("ab".data) (by decide), h ("cd".data) (by decide)⟩

/-- C3: Termination and progress: for every token oracle, input text and
source language, when the safe budget `max_tokens - 50` is positive the
chunking loop of split_text_into_chunks terminates within its fuel bound
(the result is `some`), and each iteration of the while loop strictly
shrinks the remaining text — no iteration accepts a zero-length cut, even
for input with no sentence or word boundaries at all. -/
theorem c3_chunker_terminates (tok : List Char → Nat) (text source_lang : List Char)
    (max_tokens : Nat) (hmt : 50 < max_tokens) :
    (split_text_into_chunks tok text source_lang max_tokens).isSome ∧
    (∀ rem : List Char, rem ≠ [] →
      (chunkStep tok (max_tokens - 50) source_lang rem).2.length < rem.length) := by
  have hsafe : 1 ≤ max_tokens - 50 := by omega
  constructor
  · unfold split_text_into_chunks
    by_cases h : tok text ≤ max_tokens - 50
    · simp [h]
    · rw [if_neg h]
      exact splitLoop_isSome tok (max_tokens - 50) source_lang hsafe _ _ _ (by omega)
  · intro rem hrem
    exact chunkStep_snd_lt tok (max_tokens - 50) source_lang rem hsafe hrem

/-- C3, witness at a concrete boundary-free input: the length oracle with
`max_tokens = 52` terminates on "abcd", and one loop iteration on the
boundary-free remaining text "ab" strictly shrinks it. -/
theorem c3_chunker_terminates_witness :
    (split_text_into_chunks List.length ("abcd".data) ("eng_Latn".data) 52).isSome ∧
    (chunkStep List.length (52 - 50) ("eng_Latn".data) ("ab".data)).2.length <
      ("ab".data).length := by
  have h := c3_chunker_terminates List.length ("abcd".data) ("eng_Latn".data) 52
    (by omega)
  exact ⟨h.1, h.2 ("ab".data) (by decide)⟩

/-- C5 (code bug, evaluated at the failing input): when the tokenizer
raises, the fallback of get_token_count returns `len(text) // 2.5` for a
source language starting with a complex-script code.  In Python, floor
division of an int by the float 2.5 yields a float, not an int — the
function violates its own `-> int` annotation on that branch (the value is
the expected ⌊len/2.5⌋).  The Latin branch `len(text) // 4` does return an
int, and the fallback itself never raises. -/
theorem c5_token_fallback_float :
    get_token_count none ("abcde".data) ("khm_Khmr".data) = PyNum.floatVal 2 ∧
    (get_token_count none ("abcde".data) ("khm_Khmr".data)).isInt = false ∧
    get_token_count none ("abcdefgh".data) ("eng_Latn".data) = PyNum.intVal 2 ∧
    (get_token_count none ("abcdefgh".data) ("eng_Latn".data)).isInt = true := by
  exact ⟨by decide, by decide, by decide, by decide⟩

/-- C6 (counterexample): the short-circuit of split_text_into_chunks
returns the input text itself, not its trimmed form: on " a " (token count
3, far below the safe budget 974) the single returned chunk is " a ",
which differs from the trimmed "a". -/
theorem c6_short_text_cex :
    split_text_into_chunks List.length (" a ".data) ("eng_Latn".data) MAX_INPUT_TOKENS =
      some [" a ".data] ∧
    List.length (" a ".data) ≤ MAX_INPUT_TOKENS - 50 ∧
    some [" a ".data] ≠ some [pyStrip (" a ".data)] := by
  exact ⟨by decide, by decide, by decide⟩

/-- C6 (amended): for every text whose token count is at most the safe
budget `max_tokens - 50`, split_text_into_chunks returns exactly one
chunk, and that chunk equals the input text exactly as given (untrimmed). -/
theorem c6_short_text_amended (tok : List Char → Nat) (text source_lang : List Char)
    (max_tokens : Nat) (h : tok text ≤ max_tokens - 50) :
    split_text_into_chunks tok text source_lang max_tokens = some [text] := by
  unfold split_text_into_chunks
  rw [if_pos h]

/-- C6 amended, witness: the two-character text "hi" with the length
oracle short-circuits to the single chunk "hi". -/
theorem c6_short_text_amended_witness :
    split_text_into_chunks List.length ("hi".data) ("khm_Khmr".data) MAX_INPUT_TOKENS =
      some ["hi".data] :=
  c6_short_text_amended List.length ("hi".data) ("khm_Khmr".data) MAX_INPUT_TOKENS
    (by decide)

/-- C4 (counterexample): the handler and the chunker do not use the same
safe budget.  The handler computes `safe_max_tokens = MAX_INPUT_TOKENS - 50
= 974` and passes it to split_text_into_chunks as `max_tokens`, which
subtracts the 50-token reserve again.  With the oracle counting 31 tokens
per character, a 31-character text counts 961 tokens — within the handler
budget 974, so under the claimed single subtraction the chunker invoked
with `max_tokens = 974` would have to return it as one chunk — yet the
code splits it (961 exceeds the doubly reduced budget 924). -/
theorem c4_budget_single_subtraction_cex :
    tokThirtyOne (List.replicate 31 'a') ≤ MAX_INPUT_TOKENS - 50 ∧
    split_text_into_chunks tokThirtyOne (List.replicate 31 'a') ("eng_Latn".data)
        (MAX_INPUT_TOKENS - 50) =
      some [List.replicate 29 'a', List.replicate 2 'a'] ∧
    some [List.replicate 29 'a', List.replicate 2 'a'] ≠
      some [List.replicate 31 'a'] := by
  exact ⟨by decide, by decide, by decide⟩

/-- C4 (amended): the reserve of 50 is subtracted twice along the chunked
path.  The handler decides single-shot versus chunked against
`MAX_INPUT_TOKENS - 50 = 974` (first conjunct: any validated request whose
token count is within 974 is translated by a single direct collaborator
call), while the chunker invoked by the handler with
`max_tokens = MAX_INPUT_TOKENS - 50` applies the reserve again and
short-circuits only against `(MAX_INPUT_TOKENS - 50) - 50 = 924` (second
conjunct), so its effective safe budget is `MAX_INPUT_TOKENS - 100`. -/
theorem c4_budget_double_subtraction_amended :
    (∀ (tok : List Char → Nat) (tr : Nat → List Char → Option (List Char))
        (req : TranslationRequest),
      ¬ (MAX_TEXT_LENGTH < req.text.length) → pyStrip req.text ≠ [] →
      tok req.text ≤ MAX_INPUT_TOKENS - 50 →
      translate true tok tr req =
        (match tr 0 req.text with
         | some t => some (.ok ⟨t, req.source_lang, req.target_lang⟩)
         | none => some (.httpError 500 detailTranslationFailed))) ∧
    (∀ (tok : List Char → Nat) (text source_lang : List Char),
      tok text ≤ MAX_INPUT_TOKENS - 50 - 50 →
      split_text_into_chunks tok text source_lang (MAX_INPUT_TOKENS - 50) =
        some [text]) := by
  constructor
  · intro tok tr req hlen hne htok
    unfold translate
    rw [if_neg (by simp), if_neg hlen, if_neg hne]
    unfold translateCore
    rw [if_neg (Nat.not_lt.mpr htok)]
  · intro tok text source_lang h
    unfold split_text_into_chunks
    rw [if_pos h]

/-- C4 amended, witness: a short request is translated single-shot by the
handler, and the chunker invoked with the handler budget 974 returns a
small text whole. -/
theorem c4_budget_double_subtraction_amended_witness :
    translate true List.length (fun _ c => some c)
        ⟨"hi".data, "khm_Khmr".data, "eng_Latn".data⟩ =
      some (.ok ⟨"hi".data, "khm_Khmr".data, "eng_Latn".data⟩) ∧
    split_text_into_chunks List.length ("hi".data) ("khm_Khmr".data)
        (MAX_INPUT_TOKENS - 50) = some ["hi".data] := by
  constructor
  · have h := c4_budget_double_subtraction_amended.1 List.length (fun _ c => some c)
      ⟨"hi".data, "khm_Khmr".data, "eng_Latn".data⟩ (by decide) (by decide) (by decide)
    simpa using h
  · exact c4_budget_double_subtraction_amended.2 List.length ("hi".data)
      ("khm_Khmr".data) (by decide)

/-- C7: Per-chunk isolation and order preservation.  The translated-chunk
list always has length equal to the input chunk count; when the
collaborator fails on call k and only on call k, position k (0-indexed)
holds the placeholder "[Translation error in chunk k+1]" while every other
position holds that chunk's normal translation; and on the chunked path
the overall request still succeeds (the handler returns an `ok` response
built from exactly this list). -/
theorem c7_per_chunk_isolation (tr : Nat → List Char → Option (List Char))
    (chunks : List (List Char)) (k : Nat)
    (hfail : ∀ c, tr k c = none)
    (hok : ∀ i c, i ≠ k → (tr i c).isSome) :
    (translateAll tr chunks).length = chunks.length ∧
    (∀ j, j < chunks.length →
      (translateAll tr chunks).getD j [] =
        if j = k then placeholderChunk (k + 1)
        else (tr j (chunks.getD j [])).getD []) ∧
    (∀ (tok : List Char → Nat) (req : TranslationRequest)
        (chunks0 : List (List Char)),
      ¬ (MAX_TEXT_LENGTH < req.text.length) → pyStrip req.text ≠ [] →
      MAX_INPUT_TOKENS - 50 < tok req.text →
      split_text_into_chunks tok req.text req.source_lang (MAX_INPUT_TOKENS - 50) =
        some chunks0 →
      translate true tok tr req =
        some (.ok ⟨reassemble (translateAll tr chunks0) req.text,
                   req.source_lang, req.target_lang⟩)) := by
  refine ⟨translateAllGo_length tr chunks 0, ?_, ?_⟩
  · intro j hj
    have h := translateAllGo_getD tr chunks 0 j hj
    simp only [Nat.zero_add] at h
    rw [translateAll, h]
    by_cases hjk : j = k
    · rw [hjk, hfail (chunks.getD k [])]
      simp
    · rw [if_neg hjk]
      rcases ho : tr j (chunks.getD j []) with _ | t
      · have hsome := hok j (chunks.getD j []) hjk
        rw [ho] at hsome
        exact absurd hsome (by simp)
      · simp
  · intro tok req chunks0 hlen hne htok hsplit
    unfold translate
    rw [if_neg (by simp), if_neg hlen, if_neg hne]
    unfold translateCore
    rw [if_pos htok, hsplit]

/-- C7, witness: with a collaborator failing exactly on the second call,
the three chunks "aa", "bb", "cc" yield three outputs, the placeholder at
position 1 and normal translations elsewhere. -/
theorem c7_per_chunk_isolation_witness :
    (translateAll trFailSecond [['a', 'a'], ['b', 'b'], ['c', 'c']]).length = 3 ∧
    (translateAll trFailSecond [['a', 'a'], ['b', 'b'], ['c', 'c']]).getD 1 [] =
      placeholderChunk 2 ∧
    (translateAll trFailSecond [['a', 'a'], ['b', 'b'], ['c', 'c']]).getD 0 [] =
      ['T', 'a', 'a'] := by
  have h := c7_per_chunk_isolation trFailSecond [['a', 'a'], ['b', 'b'], ['c', 'c']] 1
    (fun c => rfl) (fun i c hik => by simp [trFailSecond, hik])
  refine ⟨by simpa using h.1, ?_, ?_⟩
  · have h2 := h.2.1 1 (by decide)
    simpa using h2
  · have h2 := h.2.1 0 (by decide)
    simpa [trFailSecond] using h2

/-- C8: Validation ordering and error codes: the handler reports
model-not-loaded as a 503, then text over the character ceiling as a 400,
then empty-after-trim text as a 400, in that order — and the result in
each of these cases is a constant independent of the token oracle and the
translation collaborator (both universally quantified here), so no token
counting, chunking or translation takes place and nothing is retried. -/
theorem c8_validation_ordering (tok : List Char → Nat)
    (tr : Nat → List Char → Option (List Char)) (req : TranslationRequest) :
    (translate false tok tr req = some (.httpError 503 detailNotLoaded)) ∧
    (MAX_TEXT_LENGTH < req.text.length →
      translate true tok tr req = some (.httpError 400 detailTooLong)) ∧
    (¬ (MAX_TEXT_LENGTH < req.text.length) → pyStrip req.text = [] →
      translate true tok tr req = some (.httpError 400 detailEmpty)) := by
  refine ⟨by simp [translate], ?_, ?_⟩
  · intro h
    unfold translate
    rw [if_neg (by simp), if_pos h]
  · intro h1 h2
    unfold translate
    rw [if_neg (by simp), if_neg h1, if_pos h2]

/-- C8, witness: a request against an unloaded model receives the 503, an
over-long request the length 400, a whitespace-only request the empty 400. -/
theorem c8_validation_ordering_witness :
    translate false List.length (fun _ c => some c) ⟨['x'], ['k'], ['e']⟩ =
      some (.httpError 503 detailNotLoaded) ∧
    translate true List.length (fun _ c => some c)
        ⟨List.replicate 5001 'x', ['k'], ['e']⟩ =
      some (.httpError 400 detailTooLong) ∧
    translate true List.length (fun _ c => some c) ⟨[' ', ' '], ['k'], ['e']⟩ =
      some (.httpError 400 detailEmpty) := by
  refine ⟨(c8_validation_ordering List.length (fun _ c => some c) _).1, ?_, ?_⟩
  · exact (c8_validation_ordering List.length (fun _ c => some c) _).2.1
      (by norm_num [MAX_TEXT_LENGTH])
  · exact (c8_validation_ordering List.length (fun _ c => some c) _).2.2
      (by decide) (by decide)

/-- C9: Reassembly: on the chunked path the handler output is
`reassemble` applied to the translated chunks and the original text; when
the original contains no double newline the result is exactly the chunks
joined with a single space; when it does contain one, the original splits
into P > 1 paragraphs (P > 1 is automatic) and the result replaces the
first P - 1 occurrences of ". " in the joined output by ".\n\n". -/
theorem c9_reassembly (tok : List Char → Nat)
    (tr : Nat → List Char → Option (List Char)) (req : TranslationRequest)
    (chunks0 : List (List Char))
    (hlen : ¬ (MAX_TEXT_LENGTH < req.text.length)) (hne : pyStrip req.text ≠ [])
    (htok : MAX_INPUT_TOKENS - 50 < tok req.text)
    (hsplit : split_text_into_chunks tok req.text req.source_lang
      (MAX_INPUT_TOKENS - 50) = some chunks0) :
    translate true tok tr req =
      some (.ok ⟨reassemble (translateAll tr chunks0) req.text,
                 req.source_lang, req.target_lang⟩) ∧
    (findOcc req.text nnSep = none →
      reassemble (translateAll tr chunks0) req.text =
        List.intercalate [' '] (translateAll tr chunks0)) ∧
    (∀ i, findOcc req.text nnSep = some i →
      1 < (pySplit req.text nnSep).length ∧
      reassemble (translateAll tr chunks0) req.text =
        pyReplaceN (List.intercalate [' '] (translateAll tr chunks0)) dotSpace dotNN
          ((pySplit req.text nnSep).length - 1)) := by
  refine ⟨?_, ?_, ?_⟩
  · unfold translate
    rw [if_neg (by simp), if_neg hlen, if_neg hne]
    unfold translateCore
    rw [if_pos htok, hsplit]
  · intro h
    simp [reassemble, h]
  · intro i h
    have h2 := pySplit_len_of_found (by decide) h
    refine ⟨h2, ?_⟩
    unfold reassemble
    rw [h]
    simp only [Option.isSome_some, if_true]
    rw [if_pos h2]

/-- C9, witness: a two-paragraph text over the token budget is split at a
sentence boundary, the handler returns the reassembled identity
translation, and the paragraph branch is taken with P = 2. -/
theorem c9_reassembly_witness :
    translate true tokThirtyOne (fun _ c => some c)
        ⟨"One one one. Two two two.\n\nThree three.".data, "eng_Latn".data,
         "eng_Latn".data⟩ =
      some (.ok ⟨reassemble
        (translateAll (fun _ c => some c)
          ["One one one. Two two two.".data, "Three three.".data])
        ("One one one. Two two two.\n\nThree three.".data),
        "eng_Latn".data, "eng_Latn".data⟩) ∧
    1 < (pySplit ("One one one. Two two two.\n\nThree three.".data) nnSep).length := by
  have h := c9_reassembly tokThirtyOne (fun _ c => some c)
    ⟨"One one one. Two two two.\n\nThree three.".data, "eng_Latn".data,
     "eng_Latn".data⟩
    ["One one one. Two two two.".data, "Three three.".data]
    (by decide) (by decide) (by decide) (by decide)
  exact ⟨h.1, (h.2.2 25 (by decide)).1⟩

/-- C10 (implicit): the explicit "Text too long" 400 branch inside the
handler is unreachable for every request accepted by the request model
validation (text length between 1 and MAX_TEXT_LENGTH = 5000): under that
precondition the handler equals the same handler with the length branch
removed, and its result is never the too-long error. -/
theorem c10_too_long_unreachable (model_loaded : Bool) (tok : List Char → Nat)
    (tr : Nat → List Char → Option (List Char)) (req : TranslationRequest)
    (hv : requestValid req) :
    translate model_loaded tok tr req =
      (if model_loaded = false then some (.httpError 503 detailNotLoaded)
       else if pyStrip req.text = [] then some (.httpError 400 detailEmpty)
       else translateCore tok tr req) ∧
    translate model_loaded tok tr req ≠ some (.httpError 400 detailTooLong) := by
  obtain ⟨h1, h2⟩ := hv
  have hnl : ¬ (MAX_TEXT_LENGTH < req.text.length) := Nat.not_lt.mpr h2
  have heq : translate model_loaded tok tr req =
      (if model_loaded = false then some (.httpError 503 detailNotLoaded)
       else if pyStrip req.text = [] then some (.httpError 400 detailEmpty)
       else translateCore tok tr req) := by
    unfold translate
    by_cases hm : model_loaded = false
    · rw [if_pos hm, if_pos hm]
    · rw [if_neg hm, if_neg hm, if_neg hnl]
  refine ⟨heq, ?_⟩
  rw [heq]
  by_cases hm : model_loaded = false
  · rw [if_pos hm]
    intro hx
    injection hx with hx1
    injection hx1 with hx2 hx3
    omega
  · rw [if_neg hm]
    by_cases hs : pyStrip req.text = []
    · rw [if_pos hs]
      intro hx
      injection hx with hx1
      injection hx1 with hx2 hx3
      exact absurd hx3 (by decide)
    · rw [if_neg hs]
      exact translateCore_ne_tooLong tok tr req

/-- C10, witness: a valid two-character request with the model loaded goes
straight past the length check. -/
theorem c10_too_long_unreachable_witness :
    translate true List.length (fun _ c => some c) ⟨"ok".data, ['k'], ['e']⟩ =
      (if (true : Bool) = false then some (.httpError 503 detailNotLoaded)
       else if pyStrip ("ok".data) = [] then some (.httpError 400 detailEmpty)
       else translateCore List.length (fun _ c => some c) ⟨"ok".data, ['k'], ['e']⟩) ∧
    translate true List.length (fun _ c => some c) ⟨"ok".data, ['k'], ['e']⟩ ≠
      some (.httpError 400 detailTooLong) :=
  c10_too_long_unreachable true List.length (fun _ c => some c)
    ⟨"ok".data, ['k'], ['e']⟩ ⟨by decide, by decide⟩

end Nllb
